import Mathlib

/-!
# The WebAssembly kernel set of xsimd (`include/xsimd/arch/xsimd_wasm.hpp`)

A shallow embedding of the backend kernels `abs`, `add`, `all`, `any`,
`bitwise_and`, `broadcast`, `set` and `store_aligned`, and of the WebAssembly
SIMD instructions they wrap.

* A 128-bit register (`v128_t`) is a natural number below `2^128`; lane `i` of
  byte width `w` is the base-`2^(8w)` digit number `i` (little-endian lane
  order, as WebAssembly fixes it).
* An element type `T` is known to the kernels only through
  `std::is_integral`, `std::is_signed`, `std::is_floating_point` and
  `sizeof(T)`; `ElemType` records exactly that.
* `XSIMD_IF_CONSTEXPR` chains become `if ... then ... else`; the final
  `assert(false && "unsupported arch/op combination"); return {};` becomes
  `Outcome.unsupported` carrying the value-initialised (zero) register.
* `std::enable_if` and overloading become `Option`: `none` means that none of
  the overloads a definition embeds is viable for that call. For `all`, `any`,
  `bitwise_and`, `store_aligned` and, on integral `T`, `set`, those are all the
  overloads there are, so `none` is a call that does not compile.
* The `float` and `double` overloads of `add`, `broadcast` and `set` take or
  produce IEEE-754 values and are left out; the floating-point `abs` is kept,
  as the bit operation it is.
-/

namespace xsimd.kernel

/-! ## Data model -/

/-- The three arithmetic categories the kernels distinguish. -/
inductive Category where
  | signedInt
  | unsignedInt
  | floating
  deriving DecidableEq, Repr

/-- An element type as the kernels see it: its category and `sizeof`. -/
structure ElemType where
  cat : Category
  size : Nat
  deriving DecidableEq, Repr

namespace ElemType

/-- `std::is_integral<T>::value`. -/
def is_integral (T : ElemType) : Bool :=
  T.cat = Category.signedInt || T.cat = Category.unsignedInt

/-- `std::is_signed<T>::value` (true for the floating-point types as well). -/
def is_signed (T : ElemType) : Bool :=
  T.cat = Category.signedInt || T.cat = Category.floating

/-- `std::is_floating_point<T>::value`. -/
def is_floating_point (T : ElemType) : Bool :=
  T.cat = Category.floating

end ElemType

/-- The element type `float`. -/
def float : ElemType := ⟨Category.floating, 4⟩

/-- The element type `double`. -/
def double : ElemType := ⟨Category.floating, 8⟩

/-- A 128-bit register value (`v128_t`), as the number its 128 bits spell. -/
abbrev V128 := Nat

/-- Lane `i` of byte width `w` of a register: bits `8wi .. 8wi + 8w - 1`. -/
def lane (w i : Nat) (x : V128) : Nat :=
  x / 2 ^ (8 * w * i) % 2 ^ (8 * w)

/-- The register whose lanes `0 .. n-1` of byte width `w` hold `g 0 .. g (n-1)`,
each truncated to `8w` bits. -/
def fromLanes (w : Nat) (g : Nat → Nat) : Nat → V128
  | 0 => 0
  | n + 1 => fromLanes w g n + g n % 2 ^ (8 * w) * 2 ^ (8 * w * n)

/-- Apply a lane function to each of the `16 / w` lanes of width `w`. -/
def mapLanes (w : Nat) (f : Nat → Nat) (x : V128) : V128 :=
  fromLanes w (fun i => f (lane w i x)) (16 / w)

/-- Combine two registers lane by lane at width `w`. -/
def zipLanes (w : Nat) (f : Nat → Nat → Nat) (x y : V128) : V128 :=
  fromLanes w (fun i => f (lane w i x) (lane w i y)) (16 / w)

/-- The all-ones pattern of a `w`-byte lane. -/
def ones (w : Nat) : Nat := 2 ^ (8 * w) - 1

/-- The two's-complement value of an `8w`-bit pattern. -/
def toSigned (w : Nat) (l : Nat) : Int :=
  if l < 2 ^ (8 * w - 1) then (l : Int) else (l : Int) - 2 ^ (8 * w)

/-- The `8w`-bit pattern of an integer (conversion to a `w`-byte integer type). -/
def toBits (w : Nat) (v : Int) : Nat :=
  (v % 2 ^ (8 * w)).toNat

/-- Lane `i` of a register read back as a value of the integer type `T`. -/
def readLane (T : ElemType) (i : Nat) (x : V128) : Int :=
  if T.cat = Category.signedInt then toSigned T.size (lane T.size i x)
  else (lane T.size i x : Int)

/-- The values representable in the integer type `T`. -/
def inRange (T : ElemType) (v : Int) : Prop :=
  if T.cat = Category.signedInt then
    -(2 ^ (8 * T.size - 1) : Int) ≤ v ∧ v < 2 ^ (8 * T.size - 1)
  else 0 ≤ v ∧ v < 2 ^ (8 * T.size)

instance (T : ElemType) (v : Int) : Decidable (inRange T v) := by
  unfold inRange; infer_instance

/-- A valid Mask Value over `w`-byte lanes: every lane all-ones or all-zeros. -/
def IsMask (w : Nat) (x : V128) : Prop :=
  ∀ i, i < 16 / w → lane w i x = 0 ∨ lane w i x = ones w

instance (w : Nat) (x : V128) : Decidable (IsMask w x) := by
  unfold IsMask; infer_instance

/-- The Mask Value over `w`-byte lanes whose lane `i` is true iff `b i`. -/
def maskOfLanes (w : Nat) (b : Nat → Bool) : V128 :=
  fromLanes w (fun i => if b i then ones w else 0) (16 / w)

/-- The byte widths of the integer element types: 1, 2, 4 or 8. -/
def IntWidth (w : Nat) : Prop := w = 1 ∨ w = 2 ∨ w = 4 ∨ w = 8

instance (w : Nat) : Decidable (IntWidth w) := by
  unfold IntWidth; infer_instance

/-- The element types whose masks the kernels handle: the integer types of
width 1, 2, 4 or 8 bytes, `float` and `double`. -/
def IsMaskKind (T : ElemType) : Prop :=
  (T.is_integral = true ∧ IntWidth T.size) ∨ T = float ∨ T = double

instance (T : ElemType) : Decidable (IsMaskKind T) := by
  unfold IsMaskKind; infer_instance

/-- What a dispatching kernel does once instantiated. -/
inductive Outcome where
  /-- A hardware instruction was selected; this is its result. -/
  | value (v : V128)
  /-- The branch `assert(false && "unsupported arch/op combination"); return {};`
  was reached; `fallback` is what is returned if the assertion is compiled out. -/
  | unsupported (fallback : V128)
  deriving DecidableEq, Repr

/-- The register a kernel hands back when it does return. -/
def Outcome.returned : Outcome → V128
  | Outcome.value v => v
  | Outcome.unsupported v => v

/-- Whether a hardware instruction was selected. -/
def Outcome.selected : Outcome → Bool
  | Outcome.value _ => true
  | Outcome.unsupported _ => false

/-! ## The WebAssembly SIMD instructions used by the kernels -/

/-- The sum `b 0 * 2^0 + ... + b (n-1) * 2^(n-1)`. -/
def bitsum (b : Nat → Nat) : Nat → Nat
  | 0 => 0
  | n + 1 => bitsum b n + b n * 2 ^ n

/-- The scalar whose bit `i` is the most significant bit of lane `i` of width `w`. -/
def bitmask (w : Nat) (x : V128) : Nat :=
  bitsum (fun i => lane w i x / 2 ^ (8 * w - 1)) (16 / w)

/-- The instruction `i8x16.bitmask`. -/
def wasm_i8x16_bitmask (x : V128) : Nat := bitmask 1 x

/-- The instruction `i32x4.bitmask`. -/
def wasm_i32x4_bitmask (x : V128) : Nat := bitmask 4 x

/-- The instruction `i64x2.bitmask`. -/
def wasm_i64x2_bitmask (x : V128) : Nat := bitmask 8 x

/-- Lane-wise wrapping negation-based absolute value (`iabs`): a pattern whose
sign bit is clear is kept, any other pattern `l` becomes `(2^(8w) - l) mod 2^(8w)`. -/
def iabs (w : Nat) (l : Nat) : Nat :=
  if l < 2 ^ (8 * w - 1) then l else (2 ^ (8 * w) - l) % 2 ^ (8 * w)

/-- Lane-wise floating-point absolute value (`fabs`): the sign bit is cleared. -/
def fabs (w : Nat) (l : Nat) : Nat :=
  l % 2 ^ (8 * w - 1)

/-- Lane-wise modular addition (`iadd`). -/
def iadd (w : Nat) (a b : Nat) : Nat :=
  (a + b) % 2 ^ (8 * w)

/-- The instruction `i8x16.abs`. -/
def wasm_i8x16_abs (a : V128) : V128 := mapLanes 1 (iabs 1) a

/-- The instruction `i16x8.abs`. -/
def wasm_i16x8_abs (a : V128) : V128 := mapLanes 2 (iabs 2) a

/-- The instruction `i32x4.abs`. -/
def wasm_i32x4_abs (a : V128) : V128 := mapLanes 4 (iabs 4) a

/-- The instruction `i64x2.abs`. -/
def wasm_i64x2_abs (a : V128) : V128 := mapLanes 8 (iabs 8) a

/-- The instruction `f32x4.abs`. -/
def wasm_f32x4_abs (a : V128) : V128 := mapLanes 4 (fabs 4) a

/-- The instruction `f64x2.abs`. -/
def wasm_f64x2_abs (a : V128) : V128 := mapLanes 8 (fabs 8) a

/-- The instruction `i8x16.add`. -/
def wasm_i8x16_add (a b : V128) : V128 := zipLanes 1 (iadd 1) a b

/-- The instruction `i16x8.add`. -/
def wasm_i16x8_add (a b : V128) : V128 := zipLanes 2 (iadd 2) a b

/-- The instruction `i32x4.add`. -/
def wasm_i32x4_add (a b : V128) : V128 := zipLanes 4 (iadd 4) a b

/-- The instruction `i64x2.add`. -/
def wasm_i64x2_add (a b : V128) : V128 := zipLanes 8 (iadd 8) a b

/-- The instruction `v128.and`. -/
def wasm_v128_and (a b : V128) : V128 := a &&& b

/-- The instruction `i8x16.splat`; the argument is converted to `int8_t`. -/
def wasm_i8x16_splat (a : Int) : V128 := fromLanes 1 (fun _ => toBits 1 a) 16

/-- The instruction `i16x8.splat`; the argument is converted to `int16_t`. -/
def wasm_i16x8_splat (a : Int) : V128 := fromLanes 2 (fun _ => toBits 2 a) 8

/-- The instruction `i32x4.splat`; the argument is converted to `int32_t`. -/
def wasm_i32x4_splat (a : Int) : V128 := fromLanes 4 (fun _ => toBits 4 a) 4

/-- The instruction `i64x2.splat`; the argument is converted to `int64_t`. -/
def wasm_i64x2_splat (a : Int) : V128 := fromLanes 8 (fun _ => toBits 8 a) 2

/-- The register whose `w`-byte lanes hold the listed values, first value in
lane 0, each converted to the `w`-byte signed integer type. -/
def makeLanes (w : Nat) (cs : List Int) : V128 :=
  fromLanes w (fun i => toBits w (cs.getD i 0)) (16 / w)

/-- The intrinsic `wasm_i64x2_make`. -/
def wasm_i64x2_make (c0 c1 : Int) : V128 := makeLanes 8 [c0, c1]

/-- The intrinsic `wasm_i32x4_make`. -/
def wasm_i32x4_make (c0 c1 c2 c3 : Int) : V128 := makeLanes 4 [c0, c1, c2, c3]

/-- The intrinsic `wasm_i16x8_make`. -/
def wasm_i16x8_make (c0 c1 c2 c3 c4 c5 c6 c7 : Int) : V128 :=
  makeLanes 2 [c0, c1, c2, c3, c4, c5, c6, c7]

/-- The intrinsic `wasm_i8x16_make`. -/
def wasm_i8x16_make (c0 c1 c2 c3 c4 c5 c6 c7 c8 c9 c10 c11 c12 c13 c14 c15 : Int) : V128 :=
  makeLanes 1 [c0, c1, c2, c3, c4, c5, c6, c7, c8, c9, c10, c11, c12, c13, c14, c15]

/-- Linear memory: the byte stored at each address. -/
abbrev Memory := Nat → Nat

/-- The intrinsic `wasm_v128_store`: the sixteen bytes of the register go to
`mem .. mem + 15`, lowest byte first. -/
def wasm_v128_store (mem : Nat) (a : V128) (m : Memory) : Memory :=
  fun p => if mem ≤ p ∧ p < mem + 16 then lane 1 (p - mem) a else m p

/-- The intrinsic `wasm_v128_load`. -/
def wasm_v128_load (mem : Nat) (m : Memory) : V128 :=
  fromLanes 1 (fun i => m (mem + i)) 16

/-- The conversion `static_cast<T>(v)` to the integer type `T`: the value of
`T` congruent to `v` modulo `2^(8 * sizeof(T))`. -/
def static_cast (T : ElemType) (v : Int) : Int :=
  if T.cat = Category.signedInt then toSigned T.size (toBits T.size v)
  else (toBits T.size v : Int)

/-! ## Kernels -/

/-- The kernel `abs` (source lines 27-76). -/
def abs (T : ElemType) (self : V128) : Outcome :=
  if T.is_integral && T.is_signed then
    if T.size = 1 then Outcome.value (wasm_i8x16_abs self)
    else if T.size = 2 then Outcome.value (wasm_i16x8_abs self)
    else if T.size = 4 then Outcome.value (wasm_i32x4_abs self)
    else if T.size = 8 then Outcome.value (wasm_i64x2_abs self)
    else Outcome.unsupported 0
  else if T.is_floating_point then
    if T.size = 4 then Outcome.value (wasm_f32x4_abs self)
    else if T.size = 8 then Outcome.value (wasm_f64x2_abs self)
    else Outcome.unsupported 0
  else Outcome.unsupported 0

/-- The integral template of `add` (source lines 78-103); `none` when
`std::enable_if<std::is_integral<T>::value>` removes it. The `float` and
`double` overloads wrap IEEE-754 additions and are not part of this embedding. -/
def add (T : ElemType) (self other : V128) : Option Outcome :=
  if T.is_integral then
    if T.size = 1 then some (Outcome.value (wasm_i8x16_add self other))
    else if T.size = 2 then some (Outcome.value (wasm_i16x8_add self other))
    else if T.size = 4 then some (Outcome.value (wasm_i32x4_add self other))
    else if T.size = 8 then some (Outcome.value (wasm_i64x2_add self other))
    else some (Outcome.unsupported 0)
  else none

/-- The three overloads of `all` (source lines 117-132). -/
def all (T : ElemType) (self : V128) : Option Bool :=
  if T = float then some (wasm_i32x4_bitmask self == 0x0F)
  else if T = double then some (wasm_i64x2_bitmask self == 0x03)
  else if T.is_integral then some (wasm_i8x16_bitmask self == 0xFFFF)
  else none

/-- The three overloads of `any` (source lines 134-149). -/
def any (T : ElemType) (self : V128) : Option Bool :=
  if T = float then some (wasm_i32x4_bitmask self != 0)
  else if T = double then some (wasm_i64x2_bitmask self != 0)
  else if T.is_integral then some (wasm_i8x16_bitmask self != 0)
  else none

/-- The overloads of `bitwise_and` on `batch<T, A>` (source lines 152-156 and
162-166): `float` and the integral types. -/
def bitwise_and (T : ElemType) (self other : V128) : Option V128 :=
  if T = float then some (wasm_v128_and self other)
  else if T.is_integral then some (wasm_v128_and self other)
  else none

/-- The overloads of `bitwise_and` on `batch_bool<T, A>` (source lines 157-161
and 167-171): `float` and the integral types. -/
def bitwise_and_batch_bool (T : ElemType) (self other : V128) : Option V128 :=
  if T = float then some (wasm_v128_and self other)
  else if T.is_integral then some (wasm_v128_and self other)
  else none

/-- The integral template of `broadcast` (source lines 179-203); `none` when
`std::enable_if<std::is_integral<T>::value>` removes it. The scalar is given by
its value; the `float` and `double` overloads are not part of this embedding. -/
def broadcast (T : ElemType) (val : Int) : Option Outcome :=
  if T.is_integral then
    if T.size = 1 then some (Outcome.value (wasm_i8x16_splat val))
    else if T.size = 2 then some (Outcome.value (wasm_i16x8_splat val))
    else if T.size = 4 then some (Outcome.value (wasm_i32x4_splat val))
    else if T.size = 8 then some (Outcome.value (wasm_i64x2_splat val))
    else some (Outcome.unsupported 0)
  else none

/-- The four integral overloads of `set` on `batch<T, A>` (source lines
218-241), selected by the number of values alone; `none` when no overload takes
that many values or `T` is not integral. -/
def set (T : ElemType) (values : List Int) : Option V128 :=
  if T.is_integral then
    match values with
    | [v0, v1] => some (wasm_i64x2_make v0 v1)
    | [v0, v1, v2, v3] => some (wasm_i32x4_make v0 v1 v2 v3)
    | [v0, v1, v2, v3, v4, v5, v6, v7] =>
      some (wasm_i16x8_make v0 v1 v2 v3 v4 v5 v6 v7)
    | [v0, v1, v2, v3, v4, v5, v6, v7, v8, v9, v10, v11, v12, v13, v14, v15] =>
      some (wasm_i8x16_make v0 v1 v2 v3 v4 v5 v6 v7 v8 v9 v10 v11 v12 v13 v14 v15)
    | _ => none
  else none

/-- The overload of `set` on `batch_bool<T, A>` (source lines 250-254): each
value becomes `static_cast<T>(value ? -1LL : 0LL)` and the `batch<T, A>`
overload builds the register. -/
def set_batch_bool (T : ElemType) (values : List Bool) : Option V128 :=
  if T.is_integral then
    set T (values.map fun b => static_cast T (if b then -1 else 0))
  else none

/-- The overloads of `store_aligned` on `batch<T, A>` (source lines 257-268
and 275-280): `float`, `double` and the integral types all store the whole
register with `wasm_v128_store`. -/
def store_aligned (T : ElemType) (mem : Nat) (self : V128) (m : Memory) : Option Memory :=
  if T = float then some (wasm_v128_store mem self m)
  else if T = double then some (wasm_v128_store mem self m)
  else if T.is_integral then some (wasm_v128_store mem self m)
  else none

/-- The overload of `store_aligned` on `batch_bool<T, A>` (source lines
269-274), declared for the integral types. -/
def store_aligned_batch_bool (T : ElemType) (mem : Nat) (self : V128) (m : Memory) :
    Option Memory :=
  if T.is_integral then some (wasm_v128_store mem self m) else none

/-! ## The reference computation of `all` and `any` -/

/-- The reference form of `all` for a mask of `w`-byte lanes, as the
specification words it: the most significant bit of each of the `N = 16 / w`
lanes is gathered into an `N`-bit scalar, which is compared with the
all-lanes-set constant `2^N - 1`. -/
def all_reference (w : Nat) (m : V128) : Bool :=
  bitmask w m == 2 ^ (16 / w) - 1

/-- The reference form of `any`: the same `N`-bit scalar compared against zero. -/
def any_reference (w : Nat) (m : V128) : Bool :=
  bitmask w m != 0

/-! ## Lanes of a packed register -/

theorem fromLanes_lt (w : Nat) (g : Nat → Nat) (n : Nat) :
    fromLanes w g n < 2 ^ (8 * w * n) := by
  induction n with
  | zero => simp [fromLanes]
  | succ n ih =>
    have hB : 0 < 2 ^ (8 * w) := Nat.pos_pow_of_pos _ (by decide)
    have hg : g n % 2 ^ (8 * w) + 1 ≤ 2 ^ (8 * w) := Nat.mod_lt _ hB
    have hmul := Nat.mul_le_mul_right (2 ^ (8 * w * n)) hg
    have hpow : 2 ^ (8 * w * (n + 1)) = 2 ^ (8 * w) * 2 ^ (8 * w * n) := by
      rw [← pow_add]; congr 1; ring
    rw [fromLanes, hpow]
    calc fromLanes w g n + g n % 2 ^ (8 * w) * 2 ^ (8 * w * n)
        < 2 ^ (8 * w * n) + g n % 2 ^ (8 * w) * 2 ^ (8 * w * n) := Nat.add_lt_add_right ih _
      _ = (g n % 2 ^ (8 * w) + 1) * 2 ^ (8 * w * n) := by ring
      _ ≤ 2 ^ (8 * w) * 2 ^ (8 * w * n) := hmul

theorem lane_fromLanes (w : Nat) (g : Nat → Nat) (n i : Nat) (hi : i < n) :
    lane w i (fromLanes w g n) = g i % 2 ^ (8 * w) := by
  induction n with
  | zero => omega
  | succ n ih =>
    have hB : 0 < 2 ^ (8 * w) := Nat.pos_pow_of_pos _ (by decide)
    rcases Nat.lt_succ_iff_lt_or_eq.mp hi with h | h
    · have hsplit : 2 ^ (8 * w * n) = 2 ^ (8 * w * i) * (2 ^ (8 * w) * 2 ^ (8 * w * (n - i - 1))) := by
        rw [← pow_add, ← pow_add]; congr 1
        have : n = i + 1 + (n - i - 1) := by omega
        calc 8 * w * n = 8 * w * (i + 1 + (n - i - 1)) := by rw [← this]
          _ = _ := by ring
      have hpos : 0 < 2 ^ (8 * w * i) := Nat.pos_pow_of_pos _ (by decide)
      rw [← ih h]
      unfold lane
      rw [fromLanes, hsplit]
      have e : g n % 2 ^ (8 * w) * (2 ^ (8 * w * i) * (2 ^ (8 * w) * 2 ^ (8 * w * (n - i - 1))))
          = 2 ^ (8 * w * i) * (2 ^ (8 * w) * (g n % 2 ^ (8 * w) * 2 ^ (8 * w * (n - i - 1)))) := by ring
      rw [e, Nat.add_mul_div_left _ _ hpos, Nat.add_mul_mod_self_left]
    · subst h
      unfold lane
      rw [fromLanes]
      have hpos : 0 < 2 ^ (8 * w * i) := Nat.pos_pow_of_pos _ (by decide)
      rw [Nat.add_mul_div_right _ _ hpos, Nat.div_eq_of_lt (fromLanes_lt w g i), Nat.zero_add,
        Nat.mod_mod]

theorem lane_lt (w i : Nat) (x : V128) : lane w i x < 2 ^ (8 * w) :=
  Nat.mod_lt _ (Nat.pos_pow_of_pos _ (by decide))

theorem ones_lt (w : Nat) : ones w < 2 ^ (8 * w) := by
  have : 0 < 2 ^ (8 * w) := Nat.pos_pow_of_pos _ (by decide)
  unfold ones; omega

theorem lane_maskOfLanes (w : Nat) (b : Nat → Bool) (i : Nat) (hi : i < 16 / w) :
    lane w i (maskOfLanes w b) = if b i then ones w else 0 := by
  unfold maskOfLanes
  rw [lane_fromLanes w _ _ i hi]
  split
  · exact Nat.mod_eq_of_lt (ones_lt w)
  · exact Nat.zero_mod _

theorem isMask_maskOfLanes (w : Nat) (b : Nat → Bool) : IsMask w (maskOfLanes w b) := by
  intro i hi
  rw [lane_maskOfLanes w b i hi]
  cases b i <;> simp

/-- Byte `k` of lane `j` of width `w` is byte `w * j + k` of the register. -/
theorem lane_one_lane (w j k : Nat) (x : V128) (hk : k < w) :
    lane 1 (w * j + k) x = lane 1 k (lane w j x) := by
  unfold lane
  have h1 : 2 ^ (8 * 1 * (w * j + k)) = 2 ^ (8 * w * j) * 2 ^ (8 * 1 * k) := by
    rw [← pow_add]; congr 1; ring
  have h2 : 2 ^ (8 * w) = 2 ^ (8 * 1 * k) * 2 ^ (8 * (w - k)) := by
    rw [← pow_add]; congr 1; omega
  have h3 : 2 ^ (8 * 1) ∣ 2 ^ (8 * (w - k)) := pow_dvd_pow 2 (by omega)
  rw [h1, ← Nat.div_div_eq_div_mul, h2, Nat.mod_mul_right_div_self, Nat.mod_mod_of_dvd _ h3]

/-! ## The scalar bitmask -/

theorem bitsum_lt (b : Nat → Nat) (n : Nat) (hb : ∀ i, i < n → b i ≤ 1) :
    bitsum b n < 2 ^ n := by
  induction n with
  | zero => simp [bitsum]
  | succ n ih =>
    have h1 := ih (fun i hi => hb i (Nat.lt_succ_of_lt hi))
    have h2 := hb n (Nat.lt_succ_self n)
    have h3 : b n * 2 ^ n ≤ 1 * 2 ^ n := Nat.mul_le_mul_right _ h2
    rw [bitsum, pow_succ]
    omega

theorem bitsum_eq_full (b : Nat → Nat) (n : Nat) (hb : ∀ i, i < n → b i ≤ 1) :
    bitsum b n = 2 ^ n - 1 ↔ ∀ i, i < n → b i = 1 := by
  induction n with
  | zero => simp [bitsum]
  | succ n ih =>
    have hb0 : ∀ i, i < n → b i ≤ 1 := fun i hi => hb i (Nat.lt_succ_of_lt hi)
    have h1 := bitsum_lt b n hb0
    have h2 := hb n (Nat.lt_succ_self n)
    have hpos : 0 < 2 ^ n := Nat.pos_pow_of_pos _ (by decide)
    rw [bitsum, pow_succ]
    constructor
    · intro h i hi
      have hn : b n = 1 := by
        rcases Nat.le_one_iff_eq_zero_or_eq_one.mp h2 with h0 | h0
        · rw [h0] at h; omega
        · exact h0
      rcases Nat.lt_succ_iff_lt_or_eq.mp hi with h' | h'
      · refine (ih hb0).mp ?_ i h'
        rw [hn] at h; omega
      · rw [h']; exact hn
    · intro h
      have hn := h n (Nat.lt_succ_self n)
      have := (ih hb0).mpr (fun i hi => h i (Nat.lt_succ_of_lt hi))
      rw [hn, this]; omega

theorem bitsum_eq_zero (b : Nat → Nat) (n : Nat) :
    bitsum b n = 0 ↔ ∀ i, i < n → b i = 0 := by
  induction n with
  | zero => simp [bitsum]
  | succ n ih =>
    have hpos : 0 < 2 ^ n := Nat.pos_pow_of_pos _ (by decide)
    rw [bitsum]
    constructor
    · intro h i hi
      have h0 : bitsum b n = 0 := by omega
      have hn : b n = 0 := by
        have : b n * 2 ^ n = 0 := by omega
        rcases Nat.mul_eq_zero.mp this with h' | h'
        · exact h'
        · omega
      rcases Nat.lt_succ_iff_lt_or_eq.mp hi with h' | h'
      · exact ih.mp h0 i h'
      · rw [h']; exact hn
    · intro h
      rw [h n (Nat.lt_succ_self n), ih.mpr (fun i hi => h i (Nat.lt_succ_of_lt hi))]
      simp

/-- The most significant bit of a lane is `0` or `1`. -/
theorem msb_le_one (w i : Nat) (x : V128) (hw : 0 < w) :
    lane w i x / 2 ^ (8 * w - 1) ≤ 1 := by
  have h := lane_lt w i x
  have hp : 2 ^ (8 * w) = 2 ^ (8 * w - 1) * 2 := by
    rw [← pow_succ]; congr 1; omega
  rw [hp] at h
  exact Nat.le_of_lt_succ (Nat.div_lt_of_lt_mul h)

/-- On a lane that is all-ones or all-zeros the most significant bit says which. -/
theorem msb_eq_one_iff (w l : Nat) (hw : 0 < w) (hl : l = 0 ∨ l = ones w) :
    l / 2 ^ (8 * w - 1) = 1 ↔ l = ones w := by
  have hpos : 0 < 2 ^ (8 * w - 1) := Nat.pos_pow_of_pos _ (by decide)
  have hp : 2 ^ (8 * w) = 2 ^ (8 * w - 1) * 2 := by
    rw [← pow_succ]; congr 1; omega
  have hone : ones w / 2 ^ (8 * w - 1) = 1 := by
    unfold ones
    rw [hp]
    apply Nat.div_eq_of_lt_le <;> omega
  rcases hl with h | h
  · subst h
    have : ones w ≠ 0 := by unfold ones; omega
    simp [Nat.zero_div, this.symm]
  · rw [h]; simp [hone]

theorem bitmask_eq_full (w : Nat) (x : V128) (hw : 0 < w) (hx : IsMask w x) :
    bitmask w x = 2 ^ (16 / w) - 1 ↔ ∀ i, i < 16 / w → lane w i x = ones w := by
  unfold bitmask
  rw [bitsum_eq_full _ _ (fun i _ => msb_le_one w i x hw)]
  constructor
  · intro h i hi
    exact (msb_eq_one_iff w _ hw (hx i hi)).mp (h i hi)
  · intro h i hi
    exact (msb_eq_one_iff w _ hw (hx i hi)).mpr (h i hi)

theorem bitmask_ne_zero (w : Nat) (x : V128) (hw : 0 < w) (hx : IsMask w x) :
    bitmask w x ≠ 0 ↔ ∃ i, i < 16 / w ∧ lane w i x = ones w := by
  unfold bitmask
  rw [Ne, bitsum_eq_zero]
  constructor
  · intro h
    by_contra hc
    apply h
    intro i hi
    rcases Nat.le_one_iff_eq_zero_or_eq_one.mp (msb_le_one w i x hw) with h1 | h1
    · exact h1
    · exact absurd ⟨i, hi, (msb_eq_one_iff w _ hw (hx i hi)).mp h1⟩ hc
  · rintro ⟨i, hi, h⟩ hall
    have := (msb_eq_one_iff w _ hw (hx i hi)).mpr h
    rw [hall i hi] at this
    exact absurd this (by decide)

/-! ## Integer masks seen byte by byte -/

theorem lane_one_ones (w k : Nat) (hw : w = 1 ∨ w = 2 ∨ w = 4 ∨ w = 8) (hk : k < w) :
    lane 1 k (ones w) = ones 1 := by
  rcases hw with rfl | rfl | rfl | rfl <;> interval_cases k <;> decide

theorem byte_of_mask (w : Nat) (hw : w = 1 ∨ w = 2 ∨ w = 4 ∨ w = 8) (x : V128)
    (hx : IsMask w x) (i : Nat) (hi : i < 16) :
    (lane 1 i x = 0 ∨ lane 1 i x = ones 1) ∧
      (lane 1 i x = ones 1 ↔ lane w (i / w) x = ones w) := by
  have hwpos : 0 < w := by omega
  have hk : i % w < w := Nat.mod_lt _ hwpos
  have hj : i / w < 16 / w := by
    rcases hw with rfl | rfl | rfl | rfl <;> omega
  have hbyte : lane 1 i x = lane 1 (i % w) (lane w (i / w) x) := by
    rw [← lane_one_lane w (i / w) (i % w) x hk, Nat.div_add_mod]
  have h1 : ones 1 ≠ 0 := by decide
  rcases hx (i / w) hj with h | h
  · have hz : lane 1 i x = 0 := by rw [hbyte, h]; simp [lane]
    have hne : ones w ≠ 0 := by
      rcases hw with rfl | rfl | rfl | rfl <;> decide
    refine ⟨Or.inl hz, ?_⟩
    rw [hz, h]
    exact ⟨fun h' => absurd h'.symm h1, fun h' => absurd h'.symm hne⟩
  · have ho : lane 1 i x = ones 1 := by rw [hbyte, h]; exact lane_one_ones w _ hw hk
    exact ⟨Or.inr ho, fun _ => h, fun _ => ho⟩

theorem isMask_bytes (w : Nat) (hw : w = 1 ∨ w = 2 ∨ w = 4 ∨ w = 8) (x : V128)
    (hx : IsMask w x) : IsMask 1 x :=
  fun i hi => (byte_of_mask w hw x hx i hi).1

theorem bytes_all_iff (w : Nat) (hw : w = 1 ∨ w = 2 ∨ w = 4 ∨ w = 8) (x : V128)
    (hx : IsMask w x) :
    (∀ i, i < 16 / 1 → lane 1 i x = ones 1) ↔ ∀ j, j < 16 / w → lane w j x = ones w := by
  constructor
  · intro h j hj
    have hi : w * j < 16 := by
      rcases hw with rfl | rfl | rfl | rfl <;> omega
    have := (byte_of_mask w hw x hx (w * j) hi).2.mp (h _ hi)
    rwa [Nat.mul_div_cancel_left _ (by omega : 0 < w)] at this
  · intro h i hi
    have hj : i / w < 16 / w := by
      rcases hw with rfl | rfl | rfl | rfl <;> omega
    exact (byte_of_mask w hw x hx i hi).2.mpr (h _ hj)

theorem bytes_any_iff (w : Nat) (hw : w = 1 ∨ w = 2 ∨ w = 4 ∨ w = 8) (x : V128)
    (hx : IsMask w x) :
    (∃ i, i < 16 / 1 ∧ lane 1 i x = ones 1) ↔ ∃ j, j < 16 / w ∧ lane w j x = ones w := by
  constructor
  · rintro ⟨i, hi, h⟩
    have hj : i / w < 16 / w := by
      rcases hw with rfl | rfl | rfl | rfl <;> omega
    exact ⟨i / w, hj, (byte_of_mask w hw x hx i hi).2.mp h⟩
  · rintro ⟨j, hj, h⟩
    have hi : w * j < 16 := by
      rcases hw with rfl | rfl | rfl | rfl <;> omega
    refine ⟨w * j, hi, (byte_of_mask w hw x hx (w * j) hi).2.mpr ?_⟩
    rwa [Nat.mul_div_cancel_left _ (by omega : 0 < w)]

/-! ## `all` and `any` -/

theorem not_float_of_integral (T : ElemType) (h : T.is_integral = true) :
    T ≠ float ∧ T ≠ double := by
  constructor <;> rintro rfl <;> exact absurd h (by decide)

theorem all_integral (T : ElemType) (h : T.is_integral = true) (x : V128) :
    all T x = some (wasm_i8x16_bitmask x == 0xFFFF) := by
  have := not_float_of_integral T h
  simp [all, this.1, this.2, h]

theorem any_integral (T : ElemType) (h : T.is_integral = true) (x : V128) :
    any T x = some (wasm_i8x16_bitmask x != 0) := by
  have := not_float_of_integral T h
  simp [any, this.1, this.2, h]

theorem all_eq_decide (T : ElemType) (x : V128) (hT : IsMaskKind T) (hx : IsMask T.size x) :
    all T x = some (decide (∀ i, i < 16 / T.size → lane T.size i x = ones T.size)) := by
  rcases hT with ⟨hint, hw⟩ | rfl | rfl
  · rw [all_integral T hint]
    congr 1
    rw [Bool.eq_iff_iff, beq_iff_eq, decide_eq_true_iff, ← bytes_all_iff T.size hw x hx]
    exact bitmask_eq_full 1 x (by decide) (isMask_bytes T.size hw x hx)
  · show some (bitmask 4 x == 0x0F) = _
    congr 1
    rw [Bool.eq_iff_iff, beq_iff_eq, decide_eq_true_iff]
    exact bitmask_eq_full 4 x (by decide) hx
  · show some (bitmask 8 x == 0x03) = _
    congr 1
    rw [Bool.eq_iff_iff, beq_iff_eq, decide_eq_true_iff]
    exact bitmask_eq_full 8 x (by decide) hx

theorem any_eq_decide (T : ElemType) (x : V128) (hT : IsMaskKind T) (hx : IsMask T.size x) :
    any T x = some (decide (∃ i, i < 16 / T.size ∧ lane T.size i x = ones T.size)) := by
  rcases hT with ⟨hint, hw⟩ | rfl | rfl
  · rw [any_integral T hint]
    congr 1
    rw [Bool.eq_iff_iff, bne_iff_ne, decide_eq_true_iff, ← bytes_any_iff T.size hw x hx]
    exact bitmask_ne_zero 1 x (by decide) (isMask_bytes T.size hw x hx)
  · show some (bitmask 4 x != 0) = _
    congr 1
    rw [Bool.eq_iff_iff, bne_iff_ne, decide_eq_true_iff]
    exact bitmask_ne_zero 4 x (by decide) hx
  · show some (bitmask 8 x != 0) = _
    congr 1
    rw [Bool.eq_iff_iff, bne_iff_ne, decide_eq_true_iff]
    exact bitmask_ne_zero 8 x (by decide) hx

/-- C1: on a valid Mask Value of any handled kind (integer lanes of 1, 2, 4 or
8 bytes, `float`, `double`) `all` returns, and returns true exactly when every
lane is all-ones; on the all-true mask it returns true, and on the all-true
mask with any single lane flipped to false it returns false. -/
theorem all_true_iff_every_lane_true (T : ElemType) (x : V128)
    (hT : IsMaskKind T) (hx : IsMask T.size x) :
    all T x = some (decide (∀ i, i < 16 / T.size → lane T.size i x = ones T.size)) ∧
    all T (maskOfLanes T.size fun _ => true) = some true ∧
    ∀ j, j < 16 / T.size →
      all T (maskOfLanes T.size fun i => decide (i ≠ j)) = some false := by
  refine ⟨all_eq_decide T x hT hx, ?_, ?_⟩
  · rw [all_eq_decide T _ hT (isMask_maskOfLanes _ _)]
    congr 1
    rw [decide_eq_true_iff]
    intro i hi
    rw [lane_maskOfLanes _ _ i hi]; rfl
  · intro j hj
    rw [all_eq_decide T _ hT (isMask_maskOfLanes _ _)]
    congr 1
    rw [decide_eq_false_iff_not]
    intro h
    have hj' := h j hj
    rw [lane_maskOfLanes _ _ j hj] at hj'
    have hne : ones T.size ≠ 0 := by
      have := ones_lt T.size
      have hp : 1 < 2 ^ (8 * T.size) := by
        rcases hT with ⟨_, hw⟩ | rfl | rfl
        · rcases hw with h | h | h | h <;> rw [h] <;> decide
        · decide
        · decide
      unfold ones; omega
    simp at hj'
    exact hne hj'.symm

theorem all_true_iff_every_lane_true_witness :
    IsMaskKind ⟨Category.signedInt, 4⟩ ∧
    IsMask 4 0xFFFFFFFF00000000FFFFFFFFFFFFFFFF ∧
    all ⟨Category.signedInt, 4⟩ 0xFFFFFFFF00000000FFFFFFFFFFFFFFFF = some false :=
  ⟨by decide, by decide,
    (all_true_iff_every_lane_true ⟨Category.signedInt, 4⟩ 0xFFFFFFFF00000000FFFFFFFFFFFFFFFF
      (by decide) (by decide)).1.trans (by decide)⟩

/-- C2: on a valid Mask Value of any handled kind `any` returns, and returns
true exactly when at least one lane is all-ones; on the all-false mask it
returns false, and on the all-false mask with any single lane flipped to true
it returns true. -/
theorem any_true_iff_some_lane_true (T : ElemType) (x : V128)
    (hT : IsMaskKind T) (hx : IsMask T.size x) :
    any T x = some (decide (∃ i, i < 16 / T.size ∧ lane T.size i x = ones T.size)) ∧
    any T (maskOfLanes T.size fun _ => false) = some false ∧
    ∀ j, j < 16 / T.size →
      any T (maskOfLanes T.size fun i => decide (i = j)) = some true := by
  have hne : ones T.size ≠ 0 := by
    have := ones_lt T.size
    have hp : 1 < 2 ^ (8 * T.size) := by
      rcases hT with ⟨_, hw⟩ | rfl | rfl
      · rcases hw with h | h | h | h <;> rw [h] <;> decide
      · decide
      · decide
    unfold ones; omega
  refine ⟨any_eq_decide T x hT hx, ?_, ?_⟩
  · rw [any_eq_decide T _ hT (isMask_maskOfLanes _ _)]
    congr 1
    rw [decide_eq_false_iff_not]
    rintro ⟨i, hi, h⟩
    rw [lane_maskOfLanes _ _ i hi] at h
    simp at h
    exact hne h.symm
  · intro j hj
    rw [any_eq_decide T _ hT (isMask_maskOfLanes _ _)]
    congr 1
    rw [decide_eq_true_iff]
    refine ⟨j, hj, ?_⟩
    rw [lane_maskOfLanes _ _ j hj]; simp

theorem any_true_iff_some_lane_true_witness :
    IsMaskKind ⟨Category.unsignedInt, 2⟩ ∧
    IsMask 2 0x0000000000000000FFFF000000000000 ∧
    any ⟨Category.unsignedInt, 2⟩ 0x0000000000000000FFFF000000000000 = some true :=
  ⟨by decide, by decide,
    (any_true_iff_some_lane_true ⟨Category.unsignedInt, 2⟩ 0x0000000000000000FFFF000000000000
      (by decide) (by decide)).1.trans (by decide)⟩

/-! ## `abs` -/

theorem lane_mapLanes (w : Nat) (f : Nat → Nat) (x : V128) (i : Nat) (hi : i < 16 / w) :
    lane w i (mapLanes w f x) = f (lane w i x) % 2 ^ (8 * w) :=
  lane_fromLanes w _ _ i hi

theorem lane_zipLanes (w : Nat) (f : Nat → Nat → Nat) (x y : V128) (i : Nat)
    (hi : i < 16 / w) :
    lane w i (zipLanes w f x y) = f (lane w i x) (lane w i y) % 2 ^ (8 * w) :=
  lane_fromLanes w _ _ i hi

theorem iabs_spec (w l : Nat) (hw : IntWidth w) (hl : l < 2 ^ (8 * w)) :
    iabs w l < 2 ^ (8 * w) ∧
    (0 ≤ toSigned w l → iabs w l = l) ∧
    (toSigned w l < 0 → toSigned w l ≠ -2 ^ (8 * w - 1) →
      toSigned w (iabs w l) = -toSigned w l) ∧
    (toSigned w l = -2 ^ (8 * w - 1) → iabs w l = l) := by
  rcases hw with rfl | rfl | rfl | rfl <;>
  · simp only [iabs, toSigned] at *
    norm_num at *
    split_ifs <;> omega

theorem abs_signed (T : ElemType) (x : V128) (hs : T.cat = Category.signedInt)
    (hw : IntWidth T.size) :
    abs T x = Outcome.value (mapLanes T.size (iabs T.size) x) := by
  obtain ⟨c, w⟩ := T
  simp only at hs hw
  subst hs
  rcases hw with rfl | rfl | rfl | rfl <;> rfl

/-- C3 (the code at the failing input): on the one-byte unsigned vector whose
lane 0 holds `1`, `abs` selects no instruction: it reaches its own
`assert(false && "unsupported arch/op combination")`, and the register handed
back past the assertion is zero, not the argument; the sibling kernels `add`
and `broadcast` do select an instruction for the same element type. -/
theorem abs_unsigned_not_identity :
    abs ⟨Category.unsignedInt, 1⟩ 1 = Outcome.unsupported 0 ∧
    abs ⟨Category.unsignedInt, 1⟩ 1 ≠ Outcome.value 1 ∧
    (abs ⟨Category.unsignedInt, 1⟩ 1).returned ≠ 1 ∧
    (∃ v, add ⟨Category.unsignedInt, 1⟩ 1 1 = some (Outcome.value v)) ∧
    ∃ v, broadcast ⟨Category.unsignedInt, 1⟩ 1 = some (Outcome.value v) :=
  ⟨by decide, by decide, by decide, ⟨_, rfl⟩, ⟨_, rfl⟩⟩

/-- How far the failure of `abs` on unsigned types reaches: for an unsigned
integer element type of any width and any `x`, the call ends in the branch
`assert(false && "unsupported arch/op combination")`, with the zero register
returned past the assertion. -/
theorem abs_unsigned_unsupported (T : ElemType) (x : V128)
    (hT : T.cat = Category.unsignedInt) :
    abs T x = Outcome.unsupported 0 := by
  obtain ⟨c, w⟩ := T
  simp only at hT
  subst hT
  rfl

theorem abs_unsigned_unsupported_witness :
    abs ⟨Category.unsignedInt, 4⟩ 0x0000000700000000FFFFFFFF00000001
      = Outcome.unsupported 0 :=
  abs_unsigned_unsupported ⟨Category.unsignedInt, 4⟩ _ rfl

/-- C4: for a signed integer element type of width 1, 2, 4 or 8 bytes `abs`
selects an instruction, and in its result every lane that was non-negative is
unchanged, every negative lane `v` other than the minimum value holds `-v`, and
a lane holding the minimum value `-2^(8w-1)` is unchanged. -/
theorem abs_signed_lanes (T : ElemType) (x : V128)
    (hs : T.cat = Category.signedInt) (hw : IntWidth T.size) :
    ∃ r, abs T x = Outcome.value r ∧ ∀ i, i < 16 / T.size →
      (0 ≤ readLane T i x → lane T.size i r = lane T.size i x) ∧
      (readLane T i x < 0 → readLane T i x ≠ -2 ^ (8 * T.size - 1) →
        readLane T i r = -readLane T i x) ∧
      (readLane T i x = -2 ^ (8 * T.size - 1) → lane T.size i r = lane T.size i x) := by
  refine ⟨_, abs_signed T x hs hw, ?_⟩
  intro i hi
  have hspec := iabs_spec T.size (lane T.size i x) hw (lane_lt _ _ _)
  have hl : lane T.size i (mapLanes T.size (iabs T.size) x) = iabs T.size (lane T.size i x) := by
    rw [lane_mapLanes _ _ _ _ hi, Nat.mod_eq_of_lt hspec.1]
  simp only [readLane, hs, if_true, hl]
  exact hspec.2

theorem abs_signed_lanes_witness :
    ∃ r, abs ⟨Category.signedInt, 1⟩ 0x7F0000000000000000000080FE03FF01 = Outcome.value r ∧
      ∀ i, i < 16 / 1 →
      (0 ≤ readLane ⟨Category.signedInt, 1⟩ i 0x7F0000000000000000000080FE03FF01 →
        lane 1 i r = lane 1 i 0x7F0000000000000000000080FE03FF01) ∧
      (readLane ⟨Category.signedInt, 1⟩ i 0x7F0000000000000000000080FE03FF01 < 0 →
        readLane ⟨Category.signedInt, 1⟩ i 0x7F0000000000000000000080FE03FF01 ≠ -2 ^ (8 * 1 - 1) →
        readLane ⟨Category.signedInt, 1⟩ i r
          = -readLane ⟨Category.signedInt, 1⟩ i 0x7F0000000000000000000080FE03FF01) ∧
      (readLane ⟨Category.signedInt, 1⟩ i 0x7F0000000000000000000080FE03FF01 = -2 ^ (8 * 1 - 1) →
        lane 1 i r = lane 1 i 0x7F0000000000000000000080FE03FF01) :=
  abs_signed_lanes ⟨Category.signedInt, 1⟩ 0x7F0000000000000000000080FE03FF01 rfl (by decide)

/-! ## `add` -/

theorem add_integral (T : ElemType) (x y : V128) (hT : T.is_integral = true)
    (hw : IntWidth T.size) :
    add T x y = some (Outcome.value (zipLanes T.size (iadd T.size) x y)) := by
  obtain ⟨c, w⟩ := T
  simp only at hw
  rcases hw with rfl | rfl | rfl | rfl <;> simp [add, hT] <;> rfl

theorem toSigned_emod (w l : Nat) (hw : IntWidth w) (hl : l < 2 ^ (8 * w)) :
    toSigned w l % 2 ^ (8 * w) = (l : Int) := by
  rcases hw with rfl | rfl | rfl | rfl <;>
  · simp only [toSigned] at *
    norm_num at *
    split_ifs <;> omega

theorem readLane_emod (T : ElemType) (i : Nat) (x : V128) (hw : IntWidth T.size) :
    readLane T i x % 2 ^ (8 * T.size) = (lane T.size i x : Int) := by
  unfold readLane
  split
  · exact toSigned_emod _ _ hw (lane_lt _ _ _)
  · have := lane_lt T.size i x
    exact Int.emod_eq_of_lt (Int.ofNat_nonneg _) (by exact_mod_cast this)

/-- C5: for an integer element type of width 1, 2, 4 or 8 bytes `add` selects
an instruction whose result holds, in every lane, the sum of the two operand
lanes modulo `2^(8w)` (as bit patterns, and hence as values of the element type
up to a multiple of `2^(8w)`); for one-byte unsigned lanes
`add(broadcast(255), broadcast(1))` has every lane equal to `0`. -/
theorem add_wraps_per_lane (T : ElemType) (x y : V128)
    (hT : T.is_integral = true) (hw : IntWidth T.size) :
    (∃ r, add T x y = some (Outcome.value r) ∧ ∀ i, i < 16 / T.size →
      lane T.size i r = (lane T.size i x + lane T.size i y) % 2 ^ (8 * T.size) ∧
      readLane T i r % 2 ^ (8 * T.size)
        = (readLane T i x + readLane T i y) % 2 ^ (8 * T.size)) ∧
    ∃ a b r, broadcast ⟨Category.unsignedInt, 1⟩ 255 = some (Outcome.value a) ∧
      broadcast ⟨Category.unsignedInt, 1⟩ 1 = some (Outcome.value b) ∧
      add ⟨Category.unsignedInt, 1⟩ a b = some (Outcome.value r) ∧
      ∀ i, i < 16 → lane 1 i r = 0 := by
  refine ⟨⟨_, add_integral T x y hT hw, ?_⟩, ?_⟩
  · intro i hi
    have hl : lane T.size i (zipLanes T.size (iadd T.size) x y)
        = (lane T.size i x + lane T.size i y) % 2 ^ (8 * T.size) := by
      rw [lane_zipLanes _ _ _ _ _ hi]
      unfold iadd
      exact Nat.mod_mod _ _
    refine ⟨hl, ?_⟩
    rw [readLane_emod T i _ hw, hl, Int.add_emod, readLane_emod T i x hw,
      readLane_emod T i y hw]
    push_cast
    rfl
  · exact ⟨_, _, _, rfl, rfl, rfl, by decide⟩

theorem add_wraps_per_lane_witness :
    ∃ r, add ⟨Category.signedInt, 2⟩ 0x7FFF000000000000000000000000FFFF
        0x00010000000000000000000000000002 = some (Outcome.value r) ∧
      lane 2 0 r = 1 ∧ lane 2 7 r = 0x8000 := by
  obtain ⟨⟨r, hr, hl⟩, _⟩ := add_wraps_per_lane ⟨Category.signedInt, 2⟩
    0x7FFF000000000000000000000000FFFF 0x00010000000000000000000000000002 rfl (by decide)
  exact ⟨r, hr, (hl 0 (by decide)).1.trans (by decide), (hl 7 (by decide)).1.trans (by decide)⟩

/-! ## `set` and `broadcast` -/

theorem toBits_lt (w : Nat) (v : Int) : toBits w v < 2 ^ (8 * w) := by
  unfold toBits
  have hpos : (0 : Int) < 2 ^ (8 * w) := by positivity
  have h1 := Int.emod_lt_of_pos v hpos
  have h2 := Int.emod_nonneg v (ne_of_gt hpos)
  have h3 : ((v % 2 ^ (8 * w)).toNat : Int) < ((2 ^ (8 * w) : Nat) : Int) := by
    rw [Int.toNat_of_nonneg h2]; exact_mod_cast h1
  exact_mod_cast h3

theorem toSigned_toBits (w : Nat) (v : Int) (hw : IntWidth w)
    (hv : -(2 ^ (8 * w - 1) : Int) ≤ v ∧ v < 2 ^ (8 * w - 1)) :
    toSigned w (toBits w v) = v := by
  rcases hw with rfl | rfl | rfl | rfl <;>
  · simp only [toBits, toSigned] at *
    norm_num at *
    split_ifs <;> omega

theorem toBits_unsigned (w : Nat) (v : Int) (hw : IntWidth w)
    (hv : 0 ≤ v ∧ v < 2 ^ (8 * w)) :
    (toBits w v : Int) = v := by
  rcases hw with rfl | rfl | rfl | rfl <;>
  · simp only [toBits] at *
    norm_num at *
    omega

/-- Reading a lane that holds the pattern of an in-range value gives the value. -/
theorem read_toBits (T : ElemType) (v : Int) (hw : IntWidth T.size) (hv : inRange T v) :
    (if T.cat = Category.signedInt then toSigned T.size (toBits T.size v)
      else (toBits T.size v : Int)) = v := by
  unfold inRange at hv
  split
  · next h => rw [if_pos h] at hv; exact toSigned_toBits _ _ hw hv
  · next h => rw [if_neg h] at hv; exact toBits_unsigned _ _ hw hv

theorem lane_makeLanes (w : Nat) (cs : List Int) (i : Nat) (hi : i < 16 / w) :
    lane w i (makeLanes w cs) = toBits w (cs.getD i 0) := by
  unfold makeLanes
  rw [lane_fromLanes w _ _ i hi, Nat.mod_eq_of_lt (toBits_lt _ _)]

theorem set_eq_makeLanes (T : ElemType) (values : List Int) (hT : T.is_integral = true)
    (hw : IntWidth T.size) (hlen : values.length = 16 / T.size) :
    set T values = some (makeLanes T.size values) := by
  obtain ⟨c, w⟩ := T
  simp only at hw hlen
  rcases hw with rfl | rfl | rfl | rfl
  · rcases values with _ | ⟨v0, _ | ⟨v1, _ | ⟨v2, _ | ⟨v3, _ | ⟨v4, _ | ⟨v5, _ | ⟨v6, _ | ⟨v7, _ | ⟨v8, _ | ⟨v9, _ | ⟨v10, _ | ⟨v11, _ | ⟨v12, _ | ⟨v13, _ | ⟨v14, _ | ⟨v15, _ | ⟨v16, t⟩⟩⟩⟩⟩⟩⟩⟩⟩⟩⟩⟩⟩⟩⟩⟩⟩ <;>
      first
      | (simp at hlen; done)
      | (simp [set, hT]; rfl)
  · rcases values with _ | ⟨v0, _ | ⟨v1, _ | ⟨v2, _ | ⟨v3, _ | ⟨v4, _ | ⟨v5, _ | ⟨v6, _ | ⟨v7, _ | ⟨v8, t⟩⟩⟩⟩⟩⟩⟩⟩⟩ <;>
      first
      | (simp at hlen; done)
      | (simp [set, hT]; rfl)
  · rcases values with _ | ⟨v0, _ | ⟨v1, _ | ⟨v2, _ | ⟨v3, _ | ⟨v4, t⟩⟩⟩⟩⟩ <;>
      first
      | (simp at hlen; done)
      | (simp [set, hT]; rfl)
  · rcases values with _ | ⟨v0, _ | ⟨v1, _ | ⟨v2, t⟩⟩⟩ <;>
      first
      | (simp at hlen; done)
      | (simp [set, hT]; rfl)

/-- C6: for an integer element type `T` of width `w` in 1, 2, 4, 8 and
`N = 16 / w` values of `T`, `set` builds a register, and reading lane `i` of it
back as a `T` gives the `i`-th value, for every `i < N`, signed or unsigned. -/
theorem set_lanes_read_back (T : ElemType) (values : List Int)
    (hT : T.is_integral = true) (hw : IntWidth T.size)
    (hlen : values.length = 16 / T.size) (hv : ∀ v, v ∈ values → inRange T v) :
    ∃ r, set T values = some r ∧
      ∀ i, i < 16 / T.size → values[i]? = some (readLane T i r) := by
  refine ⟨_, set_eq_makeLanes T values hT hw hlen, ?_⟩
  intro i hi
  have hi' : i < values.length := by rw [hlen]; exact hi
  have hmem : inRange T values[i] := hv _ (List.getElem_mem hi')
  rw [List.getElem?_eq_getElem hi']
  congr 1
  unfold readLane
  rw [lane_makeLanes _ _ _ hi, List.getD_eq_getElem _ _ hi']
  exact (read_toBits T _ hw hmem).symm

theorem set_lanes_read_back_witness :
    ∃ r, set ⟨Category.signedInt, 4⟩ [-1, 2147483647, -2147483648, 5] = some r ∧
      readLane ⟨Category.signedInt, 4⟩ 0 r = -1 ∧
      readLane ⟨Category.signedInt, 4⟩ 2 r = -2147483648 := by
  obtain ⟨r, hr, hl⟩ := set_lanes_read_back ⟨Category.signedInt, 4⟩
    [-1, 2147483647, -2147483648, 5] rfl (by decide) (by decide) (by decide)
  have h0 := hl 0 (by decide)
  have h2 := hl 2 (by decide)
  simp at h0 h2
  exact ⟨r, hr, h0.symm, h2.symm⟩

/-- The integral `set` overloads are selected by the number of values alone:
a call is rejected exactly when that number is not 2, 4, 8 or 16. -/
theorem set_eq_none_iff (T : ElemType) (values : List Int) (hT : T.is_integral = true) :
    set T values = none ↔
      ¬ (values.length = 2 ∨ values.length = 4 ∨ values.length = 8 ∨ values.length = 16) := by
  rcases values with _ | ⟨v0, _ | ⟨v1, _ | ⟨v2, _ | ⟨v3, _ | ⟨v4, _ | ⟨v5, _ | ⟨v6, _ | ⟨v7, _ | ⟨v8, _ | ⟨v9, _ | ⟨v10, _ | ⟨v11, _ | ⟨v12, _ | ⟨v13, _ | ⟨v14, _ | ⟨v15, _ | ⟨v16, t⟩⟩⟩⟩⟩⟩⟩⟩⟩⟩⟩⟩⟩⟩⟩⟩⟩ <;> simp [set, hT]

/-- C7 (the code at the failing inputs): over one-byte lanes `set` called with
four values is not rejected, it selects the four-value overload and builds the
register of `wasm_i32x4_make`; over eight-byte lanes `set` called with sixteen
values selects the sixteen-value overload. -/
theorem set_accepts_mismatched_count :
    set ⟨Category.signedInt, 1⟩ [1, 2, 3, 4] = some (wasm_i32x4_make 1 2 3 4) ∧
    set ⟨Category.signedInt, 8⟩ [0, 1, 2, 3, 4, 5, 6, 7, 8, 9, 10, 11, 12, 13, 14, 15]
      = some (wasm_i8x16_make 0 1 2 3 4 5 6 7 8 9 10 11 12 13 14 15) := by
  decide

theorem toBits_static_cast_bool (T : ElemType) (b : Bool) (hT : T.is_integral = true)
    (hw : IntWidth T.size) :
    toBits T.size (static_cast T (if b then -1 else 0)) = if b then ones T.size else 0 := by
  obtain ⟨c, w⟩ := T
  simp only at hw
  rcases hw with rfl | rfl | rfl | rfl <;> cases c <;> cases b <;>
    first
    | exact absurd hT (by decide)
    | decide

/-- C8: for an integer element type `T` of width `w` in 1, 2, 4, 8 and
`N = 16 / w` boolean values, the `batch_bool` overload of `set` builds a
register whose lane `i` is all-ones when the `i`-th value is true and all-zeros
when it is false, signed and unsigned alike; the result is a valid Mask
Value. -/
theorem set_batch_bool_lanes (T : ElemType) (values : List Bool)
    (hT : T.is_integral = true) (hw : IntWidth T.size)
    (hlen : values.length = 16 / T.size) :
    ∃ r, set_batch_bool T values = some r ∧
      (∀ i, i < 16 / T.size →
        lane T.size i r = if values.getD i false then ones T.size else 0) ∧
      IsMask T.size r := by
  have hset : set_batch_bool T values
      = some (makeLanes T.size
          (values.map fun b => static_cast T (if b then -1 else 0))) := by
    unfold set_batch_bool
    rw [if_pos hT]
    exact set_eq_makeLanes T _ hT hw (by rw [List.length_map]; exact hlen)
  have hlane : ∀ i, i < 16 / T.size →
      lane T.size i (makeLanes T.size
          (values.map fun b => static_cast T (if b then -1 else 0)))
        = if values.getD i false then ones T.size else 0 := by
    intro i hi
    have hi' : i < values.length := by rw [hlen]; exact hi
    have hmap : i < (values.map fun b => static_cast T (if b then -1 else 0)).length := by
      rw [List.length_map]; exact hi'
    rw [lane_makeLanes _ _ _ hi, List.getD_eq_getElem _ _ hmap, List.getElem_map,
      List.getD_eq_getElem _ _ hi']
    exact toBits_static_cast_bool T _ hT hw
  refine ⟨_, hset, hlane, ?_⟩
  intro i hi
  rw [hlane i hi]
  cases values.getD i false <;> simp

theorem set_batch_bool_lanes_witness :
    ∃ r, set_batch_bool ⟨Category.unsignedInt, 4⟩ [true, false, false, true] = some r ∧
      (∀ i, i < 16 / 4 →
        lane 4 i r = if [true, false, false, true].getD i false then ones 4 else 0) ∧
      IsMask 4 r :=
  set_batch_bool_lanes ⟨Category.unsignedInt, 4⟩ [true, false, false, true]
    rfl (by decide) (by decide)

/-! ## `broadcast` -/

theorem broadcast_integral (T : ElemType) (val : Int) (hT : T.is_integral = true)
    (hw : IntWidth T.size) :
    broadcast T val
      = some (Outcome.value (fromLanes T.size (fun _ => toBits T.size val) (16 / T.size))) := by
  obtain ⟨c, w⟩ := T
  simp only at hw
  rcases hw with rfl | rfl | rfl | rfl <;> simp [broadcast, hT] <;> rfl

/-- C9: for an integer element type `T` of width 1, 2, 4 or 8 bytes and a
scalar `s` of that type, `broadcast` selects an instruction, and every lane of
its result, read back as a `T`, equals `s`. -/
theorem broadcast_lanes_read_back (T : ElemType) (s : Int)
    (hT : T.is_integral = true) (hw : IntWidth T.size) (hs : inRange T s) :
    ∃ r, broadcast T s = some (Outcome.value r) ∧
      ∀ i, i < 16 / T.size → readLane T i r = s := by
  refine ⟨_, broadcast_integral T s hT hw, ?_⟩
  intro i hi
  unfold readLane
  rw [lane_fromLanes _ _ _ i hi, Nat.mod_eq_of_lt (toBits_lt _ _)]
  exact read_toBits T s hw hs

theorem broadcast_lanes_read_back_witness :
    ∃ r, broadcast ⟨Category.signedInt, 2⟩ (-32768) = some (Outcome.value r) ∧
      ∀ i, i < 16 / 2 → readLane ⟨Category.signedInt, 2⟩ i r = -32768 :=
  broadcast_lanes_read_back ⟨Category.signedInt, 2⟩ (-32768) rfl (by decide) (by decide)

/-! ## `bitwise_and` -/

/-- C10: for every element type for which `bitwise_and` is declared (`float`
and the integral types), on plain vectors and on masks alike,
`bitwise_and(x, x)` is `x` and `bitwise_and(x, zero)` is the zero register. -/
theorem bitwise_and_self_and_zero (T : ElemType) (x : V128)
    (hT : T = float ∨ T.is_integral = true) :
    bitwise_and T x x = some x ∧ bitwise_and T x 0 = some 0 ∧
    bitwise_and_batch_bool T x x = some x ∧ bitwise_and_batch_bool T x 0 = some 0 := by
  have hself : wasm_v128_and x x = x := Nat.and_self x
  have hzero : wasm_v128_and x 0 = 0 := Nat.and_zero x
  unfold bitwise_and bitwise_and_batch_bool
  rw [hself, hzero]
  rcases hT with h | h
  · simp [h]
  · simp [h]

theorem bitwise_and_self_and_zero_witness :
    bitwise_and ⟨Category.unsignedInt, 8⟩ 0x0123456789ABCDEFFEDCBA9876543210
        0x0123456789ABCDEFFEDCBA9876543210
      = some 0x0123456789ABCDEFFEDCBA9876543210 ∧
    bitwise_and_batch_bool float 0xFFFFFFFF0000000000000000FFFFFFFF 0 = some 0 :=
  ⟨(bitwise_and_self_and_zero ⟨Category.unsignedInt, 8⟩ _ (Or.inr rfl)).1,
    (bitwise_and_self_and_zero float _ (Or.inl rfl)).2.2.2⟩

/-! ## Commutativity of `add` -/

theorem fromLanes_congr (w : Nat) (g h : Nat → Nat) (n : Nat)
    (hgh : ∀ i, i < n → g i = h i) : fromLanes w g n = fromLanes w h n := by
  induction n with
  | zero => rfl
  | succ n ih =>
    rw [fromLanes, fromLanes, ih (fun i hi => hgh i (Nat.lt_succ_of_lt hi)),
      hgh n (Nat.lt_succ_self n)]

/-- C11: for an integer element type of width 1, 2, 4 or 8 bytes `add` selects
an instruction, and `add(x, y)` and `add(y, x)` are the same register, bit for
bit. -/
theorem add_comm_bit_for_bit (T : ElemType) (x y : V128)
    (hT : T.is_integral = true) (hw : IntWidth T.size) :
    (∃ r, add T x y = some (Outcome.value r)) ∧ add T x y = add T y x := by
  have hc : zipLanes T.size (iadd T.size) x y = zipLanes T.size (iadd T.size) y x := by
    unfold zipLanes
    apply fromLanes_congr
    intro i _
    unfold iadd
    rw [Nat.add_comm]
  rw [add_integral T x y hT hw, add_integral T y x hT hw, hc]
  exact ⟨⟨_, rfl⟩, rfl⟩

theorem add_comm_bit_for_bit_witness :
    add ⟨Category.unsignedInt, 8⟩ 0xFFFFFFFFFFFFFFFF0000000000000001 0x00000000000000010000000000000002
      = add ⟨Category.unsignedInt, 8⟩ 0x00000000000000010000000000000002
          0xFFFFFFFFFFFFFFFF0000000000000001 :=
  (add_comm_bit_for_bit ⟨Category.unsignedInt, 8⟩ _ _ rfl (by decide)).2

/-! ## The dispatch and its fallback branch -/

theorem abs_floating (T : ElemType) (x : V128) (hT : T = float ∨ T = double) :
    ∃ v, abs T x = Outcome.value v := by
  rcases hT with rfl | rfl
  · exact ⟨wasm_f32x4_abs x, rfl⟩
  · exact ⟨wasm_f64x2_abs x, rfl⟩

theorem lane_zero (w i : Nat) : lane w i 0 = 0 := by
  simp [lane]

/-- C12 (the code at the failing input): the two-byte unsigned integer type
belongs to the Element Type Category, yet `abs` instantiated for it reaches the
branch `assert(false && "unsupported arch/op combination")` and selects no
instruction, while integer `add` and integer `broadcast` for that same type do
select one. -/
theorem abs_unsigned_reaches_fallback :
    IsMaskKind ⟨Category.unsignedInt, 2⟩ ∧
    abs ⟨Category.unsignedInt, 2⟩ 0x00050004000300020001000000FF0007
      = Outcome.unsupported 0 ∧
    (abs ⟨Category.unsignedInt, 2⟩ 0x00050004000300020001000000FF0007).selected = false ∧
    (∃ v, add ⟨Category.unsignedInt, 2⟩ 0x00050004000300020001000000FF0007
        0x00050004000300020001000000FF0007 = some (Outcome.value v)) ∧
    ∃ v, broadcast ⟨Category.unsignedInt, 2⟩ 7 = some (Outcome.value v) :=
  ⟨by decide, by decide, by decide, ⟨_, rfl⟩, ⟨_, rfl⟩⟩

/-- Which instantiations of the dispatching kernels select an instruction:
`abs` does for the signed integer types of width 1, 2, 4 or 8 bytes and for
`float` and `double`; integer `add` and integer `broadcast` do for every
integer type, signed or unsigned, of width 1, 2, 4 or 8 bytes; `abs` for an
unsigned integer type ends in the fallback branch. -/
theorem dispatch_selects_instruction (T : ElemType) :
    ((T.cat = Category.signedInt ∧ IntWidth T.size) ∨ T = float ∨ T = double →
      ∀ x, ∃ v, abs T x = Outcome.value v) ∧
    (T.is_integral = true ∧ IntWidth T.size →
      (∀ x y, ∃ v, add T x y = some (Outcome.value v)) ∧
      ∀ s, ∃ v, broadcast T s = some (Outcome.value v)) ∧
    (T.cat = Category.unsignedInt → ∀ x, abs T x = Outcome.unsupported 0) := by
  refine ⟨?_, ?_, ?_⟩
  · rintro (⟨hs, hw⟩ | h) x
    · exact ⟨_, abs_signed T x hs hw⟩
    · exact abs_floating T x h
  · rintro ⟨hT, hw⟩
    exact ⟨fun x y => ⟨_, add_integral T x y hT hw⟩, fun s => ⟨_, broadcast_integral T s hT hw⟩⟩
  · intro hT x
    obtain ⟨c, w⟩ := T
    simp only at hT
    subst hT
    rfl

theorem dispatch_selects_instruction_witness :
    (∃ v, abs ⟨Category.signedInt, 4⟩ 0x80000000FFFFFFFF0000000100000000 = Outcome.value v) ∧
    (∃ v, broadcast ⟨Category.unsignedInt, 8⟩ 42 = some (Outcome.value v)) ∧
    abs ⟨Category.unsignedInt, 8⟩ 42 = Outcome.unsupported 0 :=
  ⟨(dispatch_selects_instruction ⟨Category.signedInt, 4⟩).1 (Or.inl ⟨rfl, by decide⟩) _,
    ((dispatch_selects_instruction ⟨Category.unsignedInt, 8⟩).2.1 ⟨rfl, by decide⟩).2 42,
    (dispatch_selects_instruction ⟨Category.unsignedInt, 8⟩).2.2 rfl 42⟩

/-- C13: whenever `abs`, integer `add` or integer `broadcast` is instantiated
with a combination for which it selects no instruction, what it hands back past
the assertion is the zero register, every lane of which is `0` at every lane
width, whatever the operands are. -/
theorem fallback_returns_zero (T : ElemType) (x y : V128) (s : Int) :
    ((abs T x).selected = false →
      abs T x = Outcome.unsupported 0 ∧ (abs T x).returned = 0 ∧
      ∀ w i, lane w i (abs T x).returned = 0) ∧
    (∀ o, add T x y = some o → o.selected = false →
      o = Outcome.unsupported 0 ∧ o.returned = 0 ∧ ∀ w i, lane w i o.returned = 0) ∧
    (∀ o, broadcast T s = some o → o.selected = false →
      o = Outcome.unsupported 0 ∧ o.returned = 0 ∧ ∀ w i, lane w i o.returned = 0) := by
  have key : ∀ o : Outcome, o = Outcome.unsupported 0 →
      o = Outcome.unsupported 0 ∧ o.returned = 0 ∧ ∀ w i, lane w i o.returned = 0 := by
    rintro o rfl
    exact ⟨rfl, rfl, fun w i => lane_zero w i⟩
  refine ⟨?_, ?_, ?_⟩
  · intro h
    apply key
    unfold abs at h ⊢
    split_ifs at h ⊢ <;> first | rfl | exact absurd h (by simp [Outcome.selected])
  · intro o ho h
    apply key
    unfold add at ho
    split_ifs at ho <;> cases ho <;> first | rfl | exact absurd h (by simp [Outcome.selected])
  · intro o ho h
    apply key
    unfold broadcast at ho
    split_ifs at ho <;> cases ho <;> first | rfl | exact absurd h (by simp [Outcome.selected])

theorem fallback_returns_zero_witness :
    abs ⟨Category.signedInt, 16⟩ 0x0123456789ABCDEF0123456789ABCDEF = Outcome.unsupported 0 ∧
    (abs ⟨Category.floating, 16⟩ 0x0123456789ABCDEF0123456789ABCDEF).returned = 0 ∧
    add ⟨Category.unsignedInt, 16⟩ 7 9 = some (Outcome.unsupported 0) ∧
    ∀ w i, lane w i (Outcome.unsupported 0).returned = 0 :=
  ⟨((fallback_returns_zero ⟨Category.signedInt, 16⟩ 0x0123456789ABCDEF0123456789ABCDEF 0 0).1
      (by decide)).1,
    ((fallback_returns_zero ⟨Category.floating, 16⟩ 0x0123456789ABCDEF0123456789ABCDEF 0 0).1
      (by decide)).2.1,
    by decide,
    ((fallback_returns_zero ⟨Category.unsignedInt, 16⟩ 7 9 0).2.1 _
      (by decide : add ⟨Category.unsignedInt, 16⟩ 7 9 = some (Outcome.unsupported 0)) rfl).2.2⟩

/-! ## `bitwise_and` on masks -/

theorem testBit_lane (w i : Nat) (x : V128) (j : Nat) :
    (lane w i x).testBit j = (decide (j < 8 * w) && x.testBit (8 * w * i + j)) := by
  unfold lane
  rw [Nat.testBit_mod_two_pow, ← Nat.shiftRight_eq_div_pow, Nat.testBit_shiftRight]

theorem lane_and (w i : Nat) (x y : V128) :
    lane w i (x &&& y) = lane w i x &&& lane w i y := by
  apply Nat.eq_of_testBit_eq
  intro j
  rw [Nat.testBit_and, testBit_lane, testBit_lane, testBit_lane, Nat.testBit_and]
  cases decide (j < 8 * w) <;> simp

theorem ones_ne_zero (w : Nat) (hw : 0 < w) : ones w ≠ 0 := by
  have h : 1 < 2 ^ (8 * w) := Nat.one_lt_two_pow (by omega)
  unfold ones
  omega

theorem bitwise_and_batch_bool_declared (T : ElemType) (x y : V128)
    (hT : T = float ∨ T.is_integral = true) :
    bitwise_and_batch_bool T x y = some (x &&& y) := by
  unfold bitwise_and_batch_bool wasm_v128_and
  rcases hT with h | h
  · simp [h]
  · simp [h]

/-- C14: for valid Mask Values `m1`, `m2` over an integer type of width 1, 2,
4 or 8 bytes or over `float`, `bitwise_and(m1, m2)` is a valid Mask Value whose
lane `i` is true exactly when lane `i` of `m1` and lane `i` of `m2` both are;
and for sixteen one-byte signed lanes all set to `-1`,
`all(bitwise_and(mask_true, mask_true))` is true. -/
theorem bitwise_and_masks (T : ElemType) (m1 m2 : V128)
    (hT : T = float ∨ (T.is_integral = true ∧ IntWidth T.size))
    (h1 : IsMask T.size m1) (h2 : IsMask T.size m2) :
    (∃ r, bitwise_and_batch_bool T m1 m2 = some r ∧ IsMask T.size r ∧
      ∀ i, i < 16 / T.size →
        (lane T.size i r = ones T.size ↔
          lane T.size i m1 = ones T.size ∧ lane T.size i m2 = ones T.size)) ∧
    ∃ t r, broadcast ⟨Category.signedInt, 1⟩ (-1) = some (Outcome.value t) ∧
      bitwise_and_batch_bool ⟨Category.signedInt, 1⟩ t t = some r ∧
      all ⟨Category.signedInt, 1⟩ r = some true := by
  have hwpos : 0 < T.size := by
    rcases hT with rfl | ⟨_, h | h | h | h⟩
    · decide
    all_goals rw [h]; decide
  have hne := ones_ne_zero T.size hwpos
  have hdecl : T = float ∨ T.is_integral = true := hT.imp id And.left
  refine ⟨⟨_, bitwise_and_batch_bool_declared T m1 m2 hdecl, ?_, ?_⟩,
    ⟨_, _, rfl, rfl, by decide⟩⟩
  · intro i hi
    rw [lane_and]
    rcases h1 i hi with a | a <;> rcases h2 i hi with b | b <;> rw [a, b] <;> simp
  · intro i hi
    rw [lane_and]
    rcases h1 i hi with a | a <;> rcases h2 i hi with b | b <;> rw [a, b] <;>
      simp [hne, hne.symm]

theorem bitwise_and_masks_witness :
    ∃ r, bitwise_and_batch_bool float 0xFFFFFFFF00000000FFFFFFFF00000000
        0xFFFFFFFFFFFFFFFF0000000000000000 = some r ∧ IsMask 4 r ∧
      ∀ i, i < 16 / 4 →
        (lane 4 i r = ones 4 ↔
          lane 4 i 0xFFFFFFFF00000000FFFFFFFF00000000 = ones 4 ∧
          lane 4 i 0xFFFFFFFFFFFFFFFF0000000000000000 = ones 4) :=
  (bitwise_and_masks float 0xFFFFFFFF00000000FFFFFFFF00000000
    0xFFFFFFFFFFFFFFFF0000000000000000 (Or.inl rfl) (by decide) (by decide)).1

/-! ## `store_aligned` -/

/-- Packing the first `n` lanes of a register gives its low `8wn` bits. -/
theorem fromLanes_lane (w : Nat) (x : V128) (n : Nat) :
    fromLanes w (fun i => lane w i x) n = x % 2 ^ (8 * w * n) := by
  induction n with
  | zero => simp [fromLanes, Nat.mod_one]
  | succ n ih =>
    have hpow : 2 ^ (8 * w * (n + 1)) = (2 ^ (8 * w)) ^ (n + 1) := by rw [← pow_mul]
    have hpow2 : (2 ^ (8 * w)) ^ n = 2 ^ (8 * w * n) := by rw [← pow_mul]
    rw [fromLanes, ih, hpow, Nat.mod_pow_succ, hpow2, Nat.mod_eq_of_lt (lane_lt w n x)]
    unfold lane
    exact congrArg _ (Nat.mul_comm _ _)

theorem load_store (mem : Nat) (v : V128) (m : Memory) (hv : v < 2 ^ 128) :
    wasm_v128_load mem (wasm_v128_store mem v m) = v := by
  unfold wasm_v128_load
  have hbytes : ∀ i, i < 16 →
      (fun i => wasm_v128_store mem v m (mem + i)) i = (fun i => lane 1 i v) i := by
    intro i hi
    simp only [wasm_v128_store]
    rw [if_pos ⟨Nat.le_add_right _ _, by omega⟩, Nat.add_sub_cancel_left]
  rw [fromLanes_congr 1 _ _ 16 hbytes, fromLanes_lane]
  exact Nat.mod_eq_of_lt hv

theorem store_frame (mem : Nat) (v : V128) (m : Memory) (p : Nat)
    (hp : p < mem ∨ mem + 16 ≤ p) : wasm_v128_store mem v m p = m p := by
  simp only [wasm_v128_store]
  rw [if_neg]
  omega

/-- C15: for an integer element type and a sixteen-byte-aligned destination,
`store_aligned` (of a vector or of a mask) succeeds; a plain sixteen-byte load
from the same address then gives back the stored register, hence each of its
lanes, and every byte of memory outside the sixteen bytes starting at the
destination is unchanged. -/
theorem store_aligned_load_and_frame (T : ElemType) (mem : Nat) (v : V128) (m : Memory)
    (hT : T.is_integral = true) (_halign : mem % 16 = 0) (hv : v < 2 ^ 128) :
    ∃ m', store_aligned T mem v m = some m' ∧
      store_aligned_batch_bool T mem v m = some m' ∧
      wasm_v128_load mem m' = v ∧
      (∀ i, i < 16 / T.size → readLane T i (wasm_v128_load mem m') = readLane T i v) ∧
      ∀ p, p < mem ∨ mem + 16 ≤ p → m' p = m p := by
  have hne := not_float_of_integral T hT
  refine ⟨wasm_v128_store mem v m, ?_, ?_, load_store mem v m hv, ?_, ?_⟩
  · simp [store_aligned, hne.1, hne.2, hT]
  · simp [store_aligned_batch_bool, hT]
  · intro i _
    rw [load_store mem v m hv]
  · intro p hp
    exact store_frame mem v m p hp

theorem store_aligned_load_and_frame_witness :
    ∃ m', store_aligned ⟨Category.signedInt, 2⟩ 32 0x00010002000300040005000600078000
        (fun _ => 0xAA) = some m' ∧
      wasm_v128_load 32 m' = 0x00010002000300040005000600078000 ∧
      m' 31 = 0xAA ∧ m' 48 = 0xAA := by
  obtain ⟨m', h1, _, h3, _, h5⟩ := store_aligned_load_and_frame ⟨Category.signedInt, 2⟩ 32
    0x00010002000300040005000600078000 (fun _ => 0xAA) rfl (by decide) (by decide)
  exact ⟨m', h1, h3, h5 31 (by decide), h5 48 (by decide)⟩

/-! ## Floating-point `abs` -/

/-- C16: for `float` (four 32-bit lanes) and `double` (two 64-bit lanes) `abs`
selects an instruction whose result has, in every lane, the most significant
bit cleared and every other bit as in the argument, whatever the lane holds
(NaN and signed zero included); the bit patterns of `[1.0, -2.0, 3.0, -0.0]`
are mapped to those of `[1.0, 2.0, 3.0, 0.0]`. -/
theorem abs_float_clears_sign_bit (T : ElemType) (x : V128) (hT : T = float ∨ T = double) :
    (∃ r, abs T x = Outcome.value r ∧ ∀ i, i < 16 / T.size →
      (lane T.size i r).testBit (8 * T.size - 1) = false ∧
      ∀ j, j ≠ 8 * T.size - 1 →
        (lane T.size i r).testBit j = (lane T.size i x).testBit j) ∧
    abs float 0x8000000040400000C00000003F800000
      = Outcome.value 0x0000000040400000400000003F800000 := by
  refine ⟨?_, by decide⟩
  have hr : abs T x = Outcome.value (mapLanes T.size (fabs T.size) x) := by
    rcases hT with rfl | rfl <;> rfl
  have hwpos : 0 < T.size := by
    rcases hT with rfl | rfl <;> decide
  refine ⟨_, hr, ?_⟩
  intro i hi
  have hlt : fabs T.size (lane T.size i x) < 2 ^ (8 * T.size) := by
    unfold fabs
    exact lt_of_le_of_lt (Nat.mod_le _ _) (lane_lt _ _ _)
  rw [lane_mapLanes _ _ _ _ hi, Nat.mod_eq_of_lt hlt]
  unfold fabs
  refine ⟨?_, ?_⟩
  · rw [Nat.testBit_mod_two_pow]; simp
  · intro j hj
    rw [Nat.testBit_mod_two_pow]
    by_cases hlt2 : j < 8 * T.size - 1
    · simp [hlt2]
    · have hge : 8 * T.size ≤ j := by omega
      have hx : (lane T.size i x).testBit j = false :=
        Nat.testBit_lt_two_pow
          (lt_of_lt_of_le (lane_lt _ _ _) (Nat.pow_le_pow_right (by decide) hge))
      simp [hlt2, hx]

theorem abs_float_clears_sign_bit_witness :
    ∃ r, abs double 0xFFF80000000000018000000000000000 = Outcome.value r ∧
      ∀ i, i < 16 / 8 →
      (lane 8 i r).testBit (8 * 8 - 1) = false ∧
      ∀ j, j ≠ 8 * 8 - 1 →
        (lane 8 i r).testBit j = (lane 8 i 0xFFF80000000000018000000000000000).testBit j :=
  (abs_float_clears_sign_bit double 0xFFF80000000000018000000000000000 (Or.inr rfl)).1

/-! ## The element types of `bitwise_and` -/

/-- Where `bitwise_and` is declared (`float` and the integral types, on vectors
and on masks) it is the whole-register AND of its operands. -/
theorem bitwise_and_declared (T : ElemType) (x y : V128)
    (hT : T = float ∨ T.is_integral = true) :
    bitwise_and T x y = some (x &&& y) := by
  unfold bitwise_and wasm_v128_and
  rcases hT with h | h
  · simp [h]
  · simp [h]

/-- C17 (the code at the failing input): for `double` no overload of
`bitwise_and` is declared, neither on `batch<double, A>` nor on
`batch_bool<double, A>`, whatever the operands. -/
theorem bitwise_and_double_not_declared (x y : V128) :
    bitwise_and double x y = none ∧ bitwise_and_batch_bool double x y = none := by
  constructor <;> rfl

/-! ## `all` and `any` against their reference computation -/

/-- C18: for an integer element type of width `w` in 1, 2, 4, 8 and a valid
Mask Value `m`, the kernel's byte-granular `all(m)` equals the reference
computation over the `N = 16 / w` lanes (the `N`-bit scalar of lane sign bits
compared with `2^N - 1`, which is `0xFFFF`, `0xFF`, `0xF`, `0x3` for `w` = 1,
2, 4, 8), and `any(m)` equals that scalar being non-zero. -/
theorem all_any_refine_reference (T : ElemType) (m : V128)
    (hT : T.is_integral = true) (hw : IntWidth T.size) (hm : IsMask T.size m) :
    all T m = some (all_reference T.size m) ∧
    any T m = some (any_reference T.size m) ∧
    (2 ^ (16 / 1) - 1 = 0xFFFF ∧ 2 ^ (16 / 2) - 1 = 0xFF ∧
      2 ^ (16 / 4) - 1 = 0xF ∧ 2 ^ (16 / 8) - 1 = 0x3) := by
  have hwpos : 0 < T.size := by
    rcases hw with h | h | h | h <;> rw [h] <;> decide
  have hk : IsMaskKind T := Or.inl ⟨hT, hw⟩
  refine ⟨?_, ?_, by decide⟩
  · rw [all_eq_decide T m hk hm]
    congr 1
    unfold all_reference
    rw [Bool.eq_iff_iff, beq_iff_eq, decide_eq_true_iff]
    exact (bitmask_eq_full T.size m hwpos hm).symm
  · rw [any_eq_decide T m hk hm]
    congr 1
    unfold any_reference
    rw [Bool.eq_iff_iff, bne_iff_ne, decide_eq_true_iff]
    exact (bitmask_ne_zero T.size m hwpos hm).symm

theorem all_any_refine_reference_witness :
    all ⟨Category.signedInt, 4⟩ 0xFFFFFFFF00000000FFFFFFFFFFFFFFFF
      = some (all_reference 4 0xFFFFFFFF00000000FFFFFFFFFFFFFFFF) ∧
    any ⟨Category.signedInt, 4⟩ 0xFFFFFFFF00000000FFFFFFFFFFFFFFFF
      = some (any_reference 4 0xFFFFFFFF00000000FFFFFFFFFFFFFFFF) :=
  ⟨(all_any_refine_reference ⟨Category.signedInt, 4⟩ 0xFFFFFFFF00000000FFFFFFFFFFFFFFFF
      rfl (by decide) (by decide)).1,
    (all_any_refine_reference ⟨Category.signedInt, 4⟩ 0xFFFFFFFF00000000FFFFFFFFFFFFFFFF
      rfl (by decide) (by decide)).2.1⟩

/-! ## The two 32-bit forms of `all` -/

/-- C19: on the register whose four 32-bit lanes all hold `0x80000000`, which
is not a valid Mask Value, `all` over the `float` mask returns true while `all`
over a four-byte integer mask returns false; on every valid Mask Value of
32-bit lanes the two forms return the same result. -/
theorem all_float_vs_int32 :
    (¬ IsMask 4 0x80000000800000008000000080000000 ∧
      all float 0x80000000800000008000000080000000 = some true ∧
      all ⟨Category.signedInt, 4⟩ 0x80000000800000008000000080000000 = some false ∧
      all ⟨Category.unsignedInt, 4⟩ 0x80000000800000008000000080000000 = some false) ∧
    ∀ (T : ElemType) (x : V128), T.is_integral = true → T.size = 4 → IsMask 4 x →
      all float x = all T x := by
  refine ⟨by decide, ?_⟩
  intro T x hT hsz hx
  have hxT : IsMask T.size x := by rw [hsz]; exact hx
  have hk : IsMaskKind T := Or.inl ⟨hT, by rw [hsz]; decide⟩
  rw [all_eq_decide float x (Or.inr (Or.inl rfl)) hx, all_eq_decide T x hk hxT, hsz]
  rfl

theorem all_float_vs_int32_witness :
    all float 0x00000000FFFFFFFFFFFFFFFFFFFFFFFF
      = all ⟨Category.signedInt, 4⟩ 0x00000000FFFFFFFFFFFFFFFFFFFFFFFF :=
  all_float_vs_int32.2 ⟨Category.signedInt, 4⟩ 0x00000000FFFFFFFFFFFFFFFFFFFFFFFF
    rfl rfl (by decide)

/-! ## Idempotence of `abs` -/

theorem iabs_iabs (w l : Nat) (hw : IntWidth w) (hl : l < 2 ^ (8 * w)) :
    iabs w (iabs w l) = iabs w l := by
  rcases hw with rfl | rfl | rfl | rfl <;>
  · simp only [iabs] at *
    norm_num at *
    split_ifs <;> omega

/-- C20: for a signed integer element type of width 1, 2, 4 or 8 bytes and any
vector `x`, lanes holding the minimum value included, `abs` selects an
instruction and `abs(abs(x))` is the same register as `abs(x)`. -/
theorem abs_idempotent (T : ElemType) (x : V128)
    (hs : T.cat = Category.signedInt) (hw : IntWidth T.size) :
    ∃ r, abs T x = Outcome.value r ∧ abs T r = Outcome.value r := by
  refine ⟨_, abs_signed T x hs hw, ?_⟩
  rw [abs_signed T _ hs hw]
  congr 1
  show fromLanes _ _ _ = fromLanes _ _ _
  apply fromLanes_congr
  intro i hi
  have hlt := (iabs_spec T.size (lane T.size i x) hw (lane_lt _ _ _)).1
  show iabs T.size (lane T.size i (mapLanes T.size (iabs T.size) x)) = _
  rw [lane_mapLanes _ _ _ _ hi, Nat.mod_eq_of_lt hlt]
  exact iabs_iabs T.size _ hw (lane_lt _ _ _)

theorem abs_idempotent_witness :
    ∃ r, abs ⟨Category.signedInt, 1⟩ 0x80FF7F0001FE81C0000000000000FF80 = Outcome.value r ∧
      abs ⟨Category.signedInt, 1⟩ r = Outcome.value r :=
  abs_idempotent ⟨Category.signedInt, 1⟩ 0x80FF7F0001FE81C0000000000000FF80 rfl (by decide)

end xsimd.kernel
